import Mathlib

/-!
# Serial joystick host tool — protocol engine, shallow embedding

Shallow embedding of the protocol engine of `src/src/App.jsx`:
the checksum functions (`calculateChecksum`, `calculateCRC32`), the
calibration command builder (`generateCalibrationCommand`), the shared
transfer-frame builder (`buildProtocolFrame`), the chunked firmware
transfer loop of `startUpgrade`, the raw telemetry grouping of
`renderRawData`, and the UI-level guard on the upgrade button.

Bytes are modelled as `Nat`; wherever the JavaScript stores through a
`Uint8Array` (which truncates each element to its low 8 bits) the model
applies `% 256` at that store.  JavaScript 32-bit operations are
modelled on the 32-bit pattern (`% 2 ^ 32`), and the signed `Int32`
reading a JavaScript bitwise expression produces is recovered by
`toInt32`.
-/

namespace SerialJoystick

/-- `calculateChecksum` (App.jsx lines 742-748): running byte sum with
`sum = (sum + byte) & 0xFFFF` applied at every step. -/
def calculateChecksum (data : List Nat) : Nat :=
  data.foldl (fun sum byte => (sum + byte) % 65536) 0

/-- One iteration of the inner loop of `calculateCRC32` (App.jsx lines
769-776): `crc = (crc << 1) ^ 0x04C11DB7` when bit 31 is set, else
`crc = crc << 1`, the shift truncated to 32 bits as JavaScript `<<` is,
followed by `crc &= 0xFFFFFFFF`. -/
def crcRound (crc : Nat) : Nat :=
  if 2 ^ 31 ≤ crc % 2 ^ 32 then ((crc % 2 ^ 32 * 2) % 2 ^ 32) ^^^ 0x04C11DB7
  else (crc % 2 ^ 32 * 2) % 2 ^ 32

/-- `n` iterations of `crcRound`. -/
def crcRounds : Nat → Nat → Nat
  | 0, crc => crc
  | n + 1, crc => crcRounds n (crcRound crc)

/-- The 32-bit word `calculateCRC32` assembles from up to four bytes at
`offset` (App.jsx lines 759-765): `word |= data[offset+j] << (j*8)` for
each `j` with `offset + j < data.length`, so absent bytes pad with zero.
Elements come from a `Uint8Array`, hence the `% 256` views.  -/
def packWord (data : List Nat) (offset : Nat) : Nat :=
  (data.getD offset 0 % 256)
    ||| ((data.getD (offset + 1) 0 % 256) <<< 8)
    ||| ((data.getD (offset + 2) 0 % 256) <<< 16)
    ||| ((data.getD (offset + 3) 0 % 256) <<< 24)

/-- The 32-bit pattern `calculateCRC32` (App.jsx lines 751-780) leaves in
`~crc & 0xFFFFFFFF`: accumulator starts at `0xFFFFFFFF`, each of the
`Math.ceil(length / 4)` words is XORed in and followed by 32 `crcRound`
iterations, and the complement is taken at the end. -/
def crc32Pattern (data : List Nat) : Nat :=
  let wordCount := (data.length + 3) / 4
  let acc := (List.range wordCount).foldl
    (fun crc i => crcRounds 32 (crc ^^^ packWord data (4 * i))) 0xFFFFFFFF
  acc ^^^ 0xFFFFFFFF

/-- The signed `Int32` value JavaScript gives to a 32-bit pattern: the
result of every JavaScript bitwise operator, in particular of the
`~crc & 0xFFFFFFFF` that `calculateCRC32` returns. -/
def toInt32 (p : Nat) : Int :=
  if p % 2 ^ 32 < 2 ^ 31 then ((p % 2 ^ 32 : Nat) : Int)
  else ((p % 2 ^ 32 : Nat) : Int) - 2 ^ 32

/-- `calculateCRC32` (App.jsx lines 751-780) as the JavaScript number it
returns: the signed 32-bit reading of the complemented accumulator. -/
def calculateCRC32 (data : List Nat) : Int :=
  toInt32 (crc32Pattern data)

/-- `CalibrationConfig` value object (App.jsx lines 30-36). -/
structure CalibrationConfig where
  channelEnabled : Bool
  channelNumber : Nat
  calibrationMode : Nat
  calibrationType : Nat
  deviceType : Nat
deriving DecidableEq

/-- `generateCalibrationCommand` (App.jsx lines 135-159): the 8-byte
frame, its byte sum masked `& 0xFF`, then `[...frame, 0x00, crc]`. -/
def generateCalibrationCommand (c : CalibrationConfig) : List Nat :=
  let frame : List Nat :=
    [0x81, 0x10, 0x05, if c.channelEnabled then 0x01 else 0x00,
     c.channelNumber, c.calibrationMode, c.calibrationType, c.deviceType]
  let crc := frame.foldl (fun acc val => acc + val) 0 % 256
  frame ++ [0x00, crc]

/-- `buildProtocolFrame` (App.jsx lines 783-802).  The frame is a
`Uint8Array`, so every stored byte is truncated `% 256`; the checksum is
`calculateChecksum` over `frame.slice(0, 4 + dataLen)` (header plus
stored data), appended high byte first (`(checksum >> 8) & 0xFF`) then
low byte (`checksum & 0xFF`). -/
def buildProtocolFrame (deviceAddr funcType seq : Nat) (data : List Nat) : List Nat :=
  let dataLen := data.length
  let stored : List Nat :=
    [deviceAddr % 256, funcType % 256, seq % 256, dataLen % 256] ++ data.map (· % 256)
  let checksum := calculateChecksum stored
  stored ++ [checksum / 256 % 256, checksum % 256]

/-- The checksum region of a transfer frame, `frame.slice(0, 4 + dataLen)`
in `buildProtocolFrame`: the four stored header bytes followed by the
stored data bytes, the checksum field excluded. -/
def frameBody (deviceAddr funcType seq : Nat) (data : List Nat) : List Nat :=
  [deviceAddr % 256, funcType % 256, seq % 256, data.length % 256] ++ data.map (· % 256)

/-- Constants of `startUpgrade` (App.jsx lines 833-837). -/
def DEVICE_ADDR : Nat := 0x01

/-- Function code of firmware data frames and of the terminator frame. -/
def FUNC_SEND_DATA : Nat := 0x01

/-- Function code of the optional CRC announcement frame. -/
def FUNC_SEND_CRC : Nat := 0x06

/-- Maximum payload bytes per transfer frame (App.jsx line 837). -/
def MAX_DATA_LEN : Nat := 512

/-- `Math.round (num / den)` on nonnegative operands: round half away
from zero, i.e. the floor of `num / den + 1 / 2`. -/
def mathRound (num den : Nat) : Nat :=
  (2 * num + den) / (2 * den)

/-- Upgrade lifecycle values of the `upgradeStatus` React state
(App.jsx line 46). -/
inductive UpgradeStatus
  | idle | sending | upgrading | completed | error
deriving DecidableEq

/-- What one run of `startUpgrade` (App.jsx lines 833-944) emits and
leaves behind: the chunks it cut, the frames it sent in order, the
progress percentages it reported after each data chunk, the final
`upgradeStatus` and `upgradeProgress`, plus the loop variables `sent`
and `sequence` as they stand when the terminator goes out. -/
structure EngineResult where
  chunks : List (List Nat)
  frames : List (List Nat)
  reports : List Nat
  status : UpgradeStatus
  progress : Nat
  bytesSent : Nat
  finalSeq : Nat
deriving DecidableEq

/-- Output bundle of the chunking `while` loop. -/
structure LoopOut where
  chunks : List (List Nat)
  frames : List (List Nat)
  reports : List Nat
  finalSent : Nat
  finalSeq : Nat
deriving DecidableEq

/-- The `while (sent < totalSize)` loop of `startUpgrade` (App.jsx lines
859-888): cut `chunk = firmwareData.slice(sent, sent + min(rest, 512))`
(here the not-yet-sent suffix `rest` stands for `drop sent` of the
image), frame it with `funcType = FUNC_SEND_DATA` at the current
sequence number, report `Math.round(sent * 100 / totalSize)` for the new
`sent`, and advance `sequence = (sequence + 1) % 256`. -/
def sendLoop (rest : List Nat) (total sent seq : Nat) : LoopOut :=
  if h : rest = [] then ⟨[], [], [], sent, seq⟩
  else
    let chunk := rest.take MAX_DATA_LEN
    let frame := buildProtocolFrame DEVICE_ADDR FUNC_SEND_DATA seq chunk
    let sent1 := sent + chunk.length
    let pct := mathRound (sent1 * 100) total
    let out := sendLoop (rest.drop MAX_DATA_LEN) total sent1 ((seq + 1) % 256)
    ⟨chunk :: out.chunks, frame :: out.frames, pct :: out.reports,
     out.finalSent, out.finalSeq⟩
termination_by rest.length
decreasing_by
  simp only [List.length_drop]
  have hl : 0 < rest.length := List.length_pos.mpr h
  simp only [MAX_DATA_LEN]
  omega

/-- The four payload bytes of the CRC announcement frame (App.jsx lines
895-900): `[crc & 0xFF, (crc >> 8) & 0xFF, (crc >> 16) & 0xFF,
(crc >> 24) & 0xFF]` of the signed `Int32` value `calculateCRC32`
returned, i.e. the little-endian bytes of its 32-bit pattern. -/
def crcBytes (crc : Int) : List Nat :=
  let p := (crc % 2 ^ 32).toNat
  [p % 256, p / 2 ^ 8 % 256, p / 2 ^ 16 % 256, p / 2 ^ 24 % 256]

/-- `startUpgrade` (App.jsx lines 833-944) after its guards have passed:
view the file through a `Uint8Array`, run the chunk loop from
`sent = 0`, `sequence = 0`, optionally (`useCRC`) append one
`FUNC_SEND_CRC` frame carrying `crcBytes (calculateCRC32 firmwareData)`
and advance the sequence once more, then append the terminating
`FUNC_SEND_DATA` frame with empty payload, and finish with
`upgradeStatus = completed`, `upgradeProgress = 100`.  The source pins
`useCRC = false` (line 847); it is kept as a parameter so the dead
branch can be stated. -/
def startUpgrade (image : List Nat) (useCRC : Bool) : EngineResult :=
  let firmwareData := image.map (· % 256)
  let totalSize := firmwareData.length
  let lo := sendLoop firmwareData totalSize 0 0
  let withCRC : List (List Nat) × Nat :=
    if useCRC then
      (lo.frames ++
        [buildProtocolFrame DEVICE_ADDR FUNC_SEND_CRC lo.finalSeq
          (crcBytes (calculateCRC32 firmwareData))],
       (lo.finalSeq + 1) % 256)
    else (lo.frames, lo.finalSeq)
  let endFrame := buildProtocolFrame DEVICE_ADDR FUNC_SEND_DATA withCRC.2 []
  ⟨lo.chunks, withCRC.1 ++ [endFrame], lo.reports, .completed, 100,
   lo.finalSent, withCRC.2⟩

/-- The `TransferSession` state visible around one upgrade: the
`upgradeProgress` / `upgradeStatus` React state plus the loop variables
`sent` and `sequence` of the running `startUpgrade` invocation. -/
structure TransferSession where
  progress : Nat
  sequence : Nat
  bytesSent : Nat
  status : UpgradeStatus
deriving DecidableEq

/-- The pieces of React state the upgrade button reads (App.jsx lines
1005-1011). -/
structure UiState where
  isConnected : Bool
  firmwareFile : Option (List Nat)
  session : TransferSession
deriving DecidableEq

/-- The `disabled` predicate of the upgrade button (App.jsx line 1008):
`!isConnected || !firmwareFile || upgradeStatus === 'upgrading'`. -/
def upgradeButtonDisabled (st : UiState) : Bool :=
  !st.isConnected || st.firmwareFile.isNone ||
    st.session.status == UpgradeStatus.upgrading

/-- Pressing the upgrade button: a disabled button fires nothing, and
an enabled one runs `startUpgrade`, whose own guards (App.jsx lines
818-826) re-check the connection and the file before any session state
is touched.  On a full run the session ends completed at 100 % with the
loop variables as the engine left them. -/
def pressUpgradeButton (st : UiState) : UiState :=
  if upgradeButtonDisabled st then st
  else
    match st.firmwareFile with
    | none => st
    | some image =>
        if !st.isConnected then st
        else
          let r := startUpgrade image false
          { st with session := ⟨r.progress, r.finalSeq, r.bytesSent, r.status⟩ }

/-- The grouping loop of `renderRawData` (App.jsx lines 656-662):
`for (let i = 0; i < bytes.length - 23; i += 24)` keeps the 24-byte
slice at `i` when `bytes[i]` renders as hex `AA`, i.e. when the byte
value is `0xAA`. -/
def allGroupsLoop (bytes : List Nat) (i : Nat) : List (List Nat) :=
  if i + 24 ≤ bytes.length then
    (if bytes[i]? = some 0xAA then [(bytes.drop i).take 24] else [])
      ++ allGroupsLoop bytes (i + 24)
  else []
termination_by bytes.length - i
decreasing_by omega

/-- `renderRawData`'s displayed rows (App.jsx lines 653-666): all valid
groups, then `slice(-3)`, the most recent three. -/
def recentGroups (bytes : List Nat) : List (List Nat) :=
  let allGroups := allGroupsLoop bytes 0
  allGroups.drop (allGroups.length - 3)

/-- Spec-side companion of `calculateCRC32` (claim C3's wording): pad
the input with zero bytes to a multiple of four. -/
def padTo4 (data : List Nat) : List Nat :=
  data ++ List.replicate ((4 - data.length % 4) % 4) 0

/-- Spec-side companion of `calculateCRC32` (claim C3's wording): group
a zero-padded buffer into 32-bit words, byte 0 in the low 8 bits, byte 3
in the high 8 bits. -/
def leWords : List Nat → List Nat
  | b0 :: b1 :: b2 :: b3 :: rest =>
      ((b0 % 256) ||| ((b1 % 256) <<< 8) ||| ((b2 % 256) <<< 16) ||| ((b3 % 256) <<< 24))
        :: leWords rest
  | _ => []

/-- The CRC-32 variant exactly as claim C3 words it: accumulator
`0xFFFFFFFF`, the zero-padded input taken as little-endian 32-bit words,
each XORed in and followed by 32 shift/XOR rounds with polynomial
`0x04C11DB7` masked to 32 bits, the accumulator complemented at the
end.  To be compared against `crc32Pattern`, the translation of the
source. -/
def crc32WordSpec (data : List Nat) : Nat :=
  ((leWords (padTo4 data)).foldl (fun crc w => crcRounds 32 (crc ^^^ w)) 0xFFFFFFFF)
    ^^^ 0xFFFFFFFF

/-- Intermediate form of the per-word loop of `calculateCRC32`: consume
the buffer four bytes at a time from the front. -/
def crcLoop (crc : Nat) (data : List Nat) : Nat :=
  if h : data = [] then crc
  else crcLoop (crcRounds 32 (crc ^^^ packWord data 0)) (data.drop 4)
termination_by data.length
decreasing_by
  simp only [List.length_drop]
  have : 0 < data.length := List.length_pos.mpr h
  omega

/-! ## Checksum basics -/

/-- Folding `(sum + byte) & 0xFFFF` from any in-range accumulator is the
plain sum reduced modulo `2 ^ 16`. -/
theorem checksum_foldl (l : List Nat) : ∀ acc : Nat, acc < 65536 →
    l.foldl (fun sum byte => (sum + byte) % 65536) acc = (acc + l.sum) % 65536 := by
  induction l with
  | nil => intro acc h; simp [Nat.mod_eq_of_lt h]
  | cons b t ih =>
      intro acc h
      simp only [List.foldl_cons, List.sum_cons]
      rw [ih _ (Nat.mod_lt _ (by norm_num)), Nat.mod_add_mod]
      congr 1
      omega

/-- `calculateChecksum` is the byte sum modulo `2 ^ 16`. -/
theorem calculateChecksum_eq_sum (l : List Nat) :
    calculateChecksum l = l.sum % 65536 := by
  simpa using checksum_foldl l 0 (by norm_num)

/-- The 16-bit checksum is bounded by `2 ^ 16`. -/
theorem calculateChecksum_lt (l : List Nat) : calculateChecksum l < 65536 := by
  rw [calculateChecksum_eq_sum]; exact Nat.mod_lt _ (by norm_num)

/-- Closed form of `buildProtocolFrame`: stored header and data bytes
followed by the big-endian halves of the 16-bit sum over them. -/
theorem buildProtocolFrame_eq (deviceAddr funcType seq : Nat) (data : List Nat) :
    buildProtocolFrame deviceAddr funcType seq data =
      ([deviceAddr % 256, funcType % 256, seq % 256, data.length % 256]
          ++ data.map (· % 256))
        ++ [(([deviceAddr % 256, funcType % 256, seq % 256, data.length % 256]
          ++ data.map (· % 256)).sum % 65536) / 256,
          (([deviceAddr % 256, funcType % 256, seq % 256, data.length % 256]
          ++ data.map (· % 256)).sum % 65536) % 256] := by
  have h : (([deviceAddr % 256, funcType % 256, seq % 256, data.length % 256]
      ++ data.map (· % 256)).sum % 65536) / 256 < 256 := by
    have := Nat.mod_lt (([deviceAddr % 256, funcType % 256, seq % 256,
      data.length % 256] ++ data.map (· % 256)).sum) (show 0 < 65536 by norm_num)
    omega
  simp only [buildProtocolFrame, calculateChecksum_eq_sum]
  rw [Nat.mod_eq_of_lt h]

/-- C1.  Every transfer frame built by `buildProtocolFrame` has shape
`[deviceAddr, funcType, sequence, dataLength, ...data, checksumHighByte,
checksumLowByte]` (each stored byte truncated by the `Uint8Array`); the
final two bytes are the big-endian halves of the 16-bit modular byte sum
over everything from `deviceAddr` through the end of the data
(`frameBody`), the checksum field excluded. -/
theorem C1_frame_shape (deviceAddr funcType seq : Nat) (data : List Nat) :
    buildProtocolFrame deviceAddr funcType seq data
      = frameBody deviceAddr funcType seq data
        ++ [(frameBody deviceAddr funcType seq data).sum % 65536 / 256,
            (frameBody deviceAddr funcType seq data).sum % 65536 % 256]
    ∧ calculateChecksum (frameBody deviceAddr funcType seq data)
        = (frameBody deviceAddr funcType seq data).sum % 65536
    ∧ (frameBody deviceAddr funcType seq data).sum % 65536 / 256 < 256
    ∧ (frameBody deviceAddr funcType seq data).sum % 65536 % 256 < 256
    ∧ 256 * ((frameBody deviceAddr funcType seq data).sum % 65536 / 256)
        + (frameBody deviceAddr funcType seq data).sum % 65536 % 256
        = (frameBody deviceAddr funcType seq data).sum % 65536
    ∧ (frameBody deviceAddr funcType seq data).sum % 65536 < 65536 := by
  have hS : (frameBody deviceAddr funcType seq data).sum % 65536 < 65536 :=
    Nat.mod_lt _ (by norm_num)
  refine ⟨?_, calculateChecksum_eq_sum _, by omega,
    Nat.mod_lt _ (by norm_num), by omega, hS⟩
  simp only [frameBody]
  exact buildProtocolFrame_eq deviceAddr funcType seq data

/-! ## Calibration command -/

/-- C4 counterexample.  On the configuration of the claim the produced
frame does not end in `0x94`: the byte sum of the first eight bytes is
`0x9D`. -/
theorem C4_counterexample :
    generateCalibrationCommand ⟨true, 1, 2, 2, 1⟩ ≠
      [0x81, 0x10, 0x05, 0x01, 0x01, 0x02, 0x02, 0x01, 0x00, 0x94] := by
  decide

/-- C4 (amended).  For every `CalibrationConfig` the builder produces the
10-byte frame `[0x81, 0x10, 0x05, enabled, channel, mode, type,
deviceType, 0x00, checksum]` with `checksum` the 8-bit modular sum of
the first eight bytes; on `{enabled: true, channel: 1, mode: 2, type: 2,
deviceType: 1}` the frame is `81 10 05 01 01 02 02 01 00 9D`. -/
theorem C4_calibration_frame (c : CalibrationConfig) :
    generateCalibrationCommand c =
      [0x81, 0x10, 0x05, if c.channelEnabled then 0x01 else 0x00,
       c.channelNumber, c.calibrationMode, c.calibrationType, c.deviceType, 0x00,
       ([(0x81 : Nat), 0x10, 0x05, if c.channelEnabled then 0x01 else 0x00,
         c.channelNumber, c.calibrationMode, c.calibrationType,
         c.deviceType]).sum % 256]
      ∧ (generateCalibrationCommand c).length = 10
      ∧ generateCalibrationCommand ⟨true, 1, 2, 2, 1⟩ =
          [0x81, 0x10, 0x05, 0x01, 0x01, 0x02, 0x02, 0x01, 0x00, 0x9D] := by
  refine ⟨?_, by simp [generateCalibrationCommand], by decide⟩
  simp [generateCalibrationCommand, List.sum_eq_foldl]

/-! ## CRC-32 word variant (C3) -/

/-- The stored bytes of `packWord` shift with a four-byte drop of the
buffer. -/
theorem packWord_shift (data : List Nat) (k : Nat) :
    packWord data (4 + k) = packWord (data.drop 4) k := by
  simp [packWord, List.getD_eq_getElem?_getD, List.getElem?_drop]
  ring_nf

theorem rangeFold_eq_crcLoop : ∀ (n : Nat) (data : List Nat) (crc : Nat),
    n = (data.length + 3) / 4 →
    (List.range n).foldl (fun c i => crcRounds 32 (c ^^^ packWord data (4 * i))) crc
      = crcLoop crc data := by
  intro n
  induction n with
  | zero =>
      intro data crc h
      have hd : data = [] := by
        have : data.length = 0 := by omega
        exact List.eq_nil_of_length_eq_zero this
      subst hd
      rw [crcLoop.eq_def]
      simp
  | succ n ih =>
      intro data crc h
      have hne : data ≠ [] := by
        intro he; subst he; simp at h
      rw [List.range_succ_eq_map]
      simp only [List.foldl_cons, List.foldl_map, Nat.mul_zero, Nat.succ_eq_add_one]
      rw [crcLoop.eq_def, dif_neg hne]
      have hpack : ∀ i : Nat, packWord data (4 * (i + 1)) = packWord (data.drop 4) (4 * i) := by
        intro i
        have h4 : 4 * (i + 1) = 4 + 4 * i := by ring
        rw [h4, packWord_shift]
      simp only [hpack]
      exact ih (data.drop 4) _ (by simp only [List.length_drop]; omega)

theorem crcLoop_eq_spec (data : List Nat) (crc : Nat) :
    crcLoop crc data
      = (leWords (padTo4 data)).foldl (fun c w => crcRounds 32 (c ^^^ w)) crc := by
  match data with
  | [] => rw [crcLoop.eq_def]; simp [padTo4, leWords]
  | [a] =>
      rw [crcLoop.eq_def]
      simp [padTo4, leWords, packWord, List.getD, crcLoop]
  | [a, b] =>
      rw [crcLoop.eq_def]
      simp [padTo4, leWords, packWord, List.getD, crcLoop]
  | [a, b, c] =>
      rw [crcLoop.eq_def]
      simp [padTo4, leWords, packWord, List.getD, crcLoop]
  | a :: b :: c :: d :: rest =>
      have hcount : (4 - (a :: b :: c :: d :: rest).length % 4) % 4
          = (4 - rest.length % 4) % 4 := by
        simp only [List.length_cons]
        omega
      have hpad : padTo4 (a :: b :: c :: d :: rest) = a :: b :: c :: d :: padTo4 rest := by
        simp only [padTo4, hcount, List.cons_append]
      have hword : packWord (a :: b :: c :: d :: rest) 0
          = (a % 256) ||| ((b % 256) <<< 8) ||| ((c % 256) <<< 16) ||| ((d % 256) <<< 24) := by
        simp [packWord, List.getD]
      rw [crcLoop.eq_def, dif_neg (List.cons_ne_nil a (b :: c :: d :: rest))]
      simp only [List.drop_succ_cons, List.drop_zero, hpad, hword]
      rw [show leWords (a :: b :: c :: d :: padTo4 rest)
          = ((a % 256) ||| ((b % 256) <<< 8) ||| ((c % 256) <<< 16) ||| ((d % 256) <<< 24))
            :: leWords (padTo4 rest) from rfl]
      rw [List.foldl_cons, crcLoop_eq_spec rest]
termination_by data.length

theorem crc32Pattern_eq_spec (data : List Nat) :
    crc32Pattern data = crc32WordSpec data := by
  simp only [crc32Pattern, crc32WordSpec]
  rw [rangeFold_eq_crcLoop ((data.length + 3) / 4) data 0xFFFFFFFF rfl,
    crcLoop_eq_spec]

theorem crcRound_lt (crc : Nat) : crcRound crc < 2 ^ 32 := by
  unfold crcRound
  split
  · exact Nat.xor_lt_two_pow (Nat.mod_lt _ (by norm_num)) (by norm_num)
  · exact Nat.mod_lt _ (by norm_num)

theorem crcRounds_lt (n : Nat) (crc : Nat) (h : 0 < n) : crcRounds n crc < 2 ^ 32 := by
  induction n generalizing crc with
  | zero => omega
  | succ m ih =>
      match m with
      | 0 => simpa [crcRounds] using crcRound_lt crc
      | k + 1 =>
          show crcRounds (k + 1) (crcRound crc) < 2 ^ 32
          exact ih (crcRound crc) (Nat.succ_pos k)

theorem crc32Pattern_lt (data : List Nat) : crc32Pattern data < 2 ^ 32 := by
  simp only [crc32Pattern]
  have hfold : ∀ (l : List Nat) (crc : Nat), crc < 2 ^ 32 →
      l.foldl (fun c i => crcRounds 32 (c ^^^ packWord data (4 * i))) crc < 2 ^ 32 := by
    intro l
    induction l with
    | nil => intro crc h; simpa using h
    | cons x t ih =>
        intro crc h
        simp only [List.foldl_cons]
        exact ih _ (crcRounds_lt 32 _ (by norm_num))
  exact Nat.xor_lt_two_pow (hfold _ _ (by norm_num)) (by norm_num)

theorem toInt32_range (p : Nat) : -(2 ^ 31) ≤ toInt32 p ∧ toInt32 p < 2 ^ 31 := by
  unfold toInt32
  split <;> constructor <;> omega

theorem toInt32_emod_toNat (p : Nat) (h : p < 2 ^ 32) :
    ((toInt32 p) % (2 ^ 32 : Int)).toNat = p := by
  unfold toInt32
  rw [Nat.mod_eq_of_lt h]
  split <;> omega

theorem crcBytes_toInt32 (p : Nat) (h : p < 2 ^ 32) :
    crcBytes (toInt32 p)
      = [p % 256, p / 2 ^ 8 % 256, p / 2 ^ 16 % 256, p / 2 ^ 24 % 256] := by
  simp only [crcBytes, toInt32_emod_toNat p h]

set_option maxRecDepth 8000 in
/-- C3 counterexample.  `calculateCRC32` does not return a `u32` in
`[0, 2 ^ 32)`: on the four bytes `[1, 2, 3, 4]` the JavaScript
expression `~crc & 0xFFFFFFFF` yields the negative `Int32`
`-497805136`. -/
theorem C3_counterexample :
    calculateCRC32 [1, 2, 3, 4] = -497805136 ∧ calculateCRC32 [1, 2, 3, 4] < 0 := by
  decide

/-- C3 (amended).  `calculateCRC32` computes bit-for-bit the specified
word-oriented CRC-32 variant (`crc32WordSpec`, written out from the
claim: init `0xFFFFFFFF`, zero-padded little-endian 32-bit words, 32
shift/XOR rounds with polynomial `0x04C11DB7` per word, final
complement), but it returns the SIGNED 32-bit reading of the
complemented accumulator — a value in `[-2 ^ 31, 2 ^ 31)`, equal to the
pattern when the pattern is below `2 ^ 31` and to pattern minus `2 ^ 32`
otherwise.  On the empty buffer it returns 0, and it is a pure function,
hence deterministic. -/
theorem C3_crc32_word (data : List Nat) :
    crc32Pattern data = crc32WordSpec data
    ∧ calculateCRC32 data = toInt32 (crc32WordSpec data)
    ∧ crc32WordSpec data < 2 ^ 32
    ∧ -(2 ^ 31) ≤ calculateCRC32 data
    ∧ calculateCRC32 data < 2 ^ 31
    ∧ (2 ^ 31 ≤ crc32WordSpec data →
        calculateCRC32 data = (crc32WordSpec data : Int) - 2 ^ 32)
    ∧ (crc32WordSpec data < 2 ^ 31 →
        calculateCRC32 data = (crc32WordSpec data : Int))
    ∧ calculateCRC32 [] = 0 := by
  have h1 := crc32Pattern_eq_spec data
  have h2 := crc32Pattern_lt data
  have h2x : crc32WordSpec data < 2 ^ 32 := h1 ▸ h2
  have hcalc : calculateCRC32 data = toInt32 (crc32WordSpec data) := by
    rw [calculateCRC32, h1]
  refine ⟨h1, hcalc, h2x, ?_, ?_, ?_, ?_, by decide⟩
  · rw [hcalc]; exact (toInt32_range _).1
  · rw [hcalc]; exact (toInt32_range _).2
  · intro hge
    rw [hcalc]
    unfold toInt32
    rw [Nat.mod_eq_of_lt h2x, if_neg (by omega)]
  · intro hlt
    rw [hcalc]
    unfold toInt32
    rw [Nat.mod_eq_of_lt h2x, if_pos hlt]

set_option maxRecDepth 8000 in
/-- C3 witness: both signedness clauses discharged on concrete
buffers. -/
theorem C3_crc32_word_witness :
    2 ^ 31 ≤ crc32WordSpec [1, 2, 3, 4]
    ∧ calculateCRC32 [1, 2, 3, 4] = (crc32WordSpec [1, 2, 3, 4] : Int) - 2 ^ 32
    ∧ crc32WordSpec [0] < 2 ^ 31
    ∧ calculateCRC32 [0] = (crc32WordSpec [0] : Int) := by
  refine ⟨by decide, (C3_crc32_word [1, 2, 3, 4]).2.2.2.2.2.1 (by decide),
    by decide, (C3_crc32_word [0]).2.2.2.2.2.2.1 (by decide)⟩

/-! ## Transfer loop structure (C2, C5, C6) -/

/-- Unfolding of `sendLoop` on the empty suffix. -/
theorem sendLoop_nil (total sent seq : Nat) :
    sendLoop [] total sent seq = ⟨[], [], [], sent, seq⟩ := by
  rw [sendLoop.eq_def]
  simp

theorem sendLoop_ne (rest : List Nat) (total sent seq : Nat) (h : rest ≠ []) :
    sendLoop rest total sent seq =
      ⟨rest.take 512 ::
         (sendLoop (rest.drop 512) total (sent + (rest.take 512).length)
           ((seq + 1) % 256)).chunks,
       buildProtocolFrame DEVICE_ADDR FUNC_SEND_DATA seq (rest.take 512) ::
         (sendLoop (rest.drop 512) total (sent + (rest.take 512).length)
           ((seq + 1) % 256)).frames,
       mathRound ((sent + (rest.take 512).length) * 100) total ::
         (sendLoop (rest.drop 512) total (sent + (rest.take 512).length)
           ((seq + 1) % 256)).reports,
       (sendLoop (rest.drop 512) total (sent + (rest.take 512).length)
         ((seq + 1) % 256)).finalSent,
       (sendLoop (rest.drop 512) total (sent + (rest.take 512).length)
         ((seq + 1) % 256)).finalSeq⟩ := by
  rw [sendLoop.eq_def, dif_neg h]
  simp [MAX_DATA_LEN]

theorem sendLoop_sum (rest : List Nat) (total sent seq : Nat) :
    ((sendLoop rest total sent seq).chunks.map List.length).sum = rest.length := by
  by_cases h : rest = []
  · subst h; simp [sendLoop_nil]
  · rw [sendLoop_ne rest total sent seq h]
    simp only [List.map_cons, List.sum_cons]
    rw [sendLoop_sum (rest.drop 512) total (sent + (rest.take 512).length) ((seq + 1) % 256)]
    simp only [List.length_take, List.length_drop]
    omega
termination_by rest.length
decreasing_by
  simp only [List.length_drop]
  have : 0 < rest.length := List.length_pos.mpr h
  omega

theorem sendLoop_flatten (rest : List Nat) (total sent seq : Nat) :
    (sendLoop rest total sent seq).chunks.flatten = rest := by
  by_cases h : rest = []
  · subst h; simp [sendLoop_nil]
  · rw [sendLoop_ne rest total sent seq h]
    simp only [List.flatten_cons]
    rw [sendLoop_flatten (rest.drop 512) total (sent + (rest.take 512).length) ((seq + 1) % 256)]
    exact List.take_append_drop 512 rest
termination_by rest.length
decreasing_by
  simp only [List.length_drop]
  have : 0 < rest.length := List.length_pos.mpr h
  omega

theorem sendLoop_count (rest : List Nat) (total sent seq : Nat) :
    (sendLoop rest total sent seq).chunks.length = (rest.length + 511) / 512 := by
  by_cases h : rest = []
  · subst h; simp [sendLoop_nil]
  · rw [sendLoop_ne rest total sent seq h]
    simp only [List.length_cons]
    rw [sendLoop_count (rest.drop 512) total (sent + (rest.take 512).length) ((seq + 1) % 256)]
    simp only [List.length_drop]
    have : 0 < rest.length := List.length_pos.mpr h
    omega
termination_by rest.length
decreasing_by
  simp only [List.length_drop]
  have : 0 < rest.length := List.length_pos.mpr h
  omega

theorem sendLoop_chunk_le (rest : List Nat) (total sent seq : Nat) :
    ∀ c ∈ (sendLoop rest total sent seq).chunks, c.length ≤ 512 ∧ c ≠ [] := by
  by_cases h : rest = []
  · subst h; simp [sendLoop_nil]
  · rw [sendLoop_ne rest total sent seq h]
    intro c hc
    rcases List.mem_cons.mp hc with hc | hc
    · subst hc
      constructor
      · simp only [List.length_take]; omega
      · simp only [ne_eq, List.take_eq_nil_iff]
        have : 0 < rest.length := List.length_pos.mpr h
        intro hor
        rcases hor with h5 | hr
        · omega
        · exact h hr
    · exact sendLoop_chunk_le (rest.drop 512) total (sent + (rest.take 512).length)
        ((seq + 1) % 256) c hc
termination_by rest.length
decreasing_by
  simp only [List.length_drop]
  have : 0 < rest.length := List.length_pos.mpr h
  omega

theorem sendLoop_chunks_ne (rest : List Nat) (total sent seq : Nat) (h : rest ≠ []) :
    (sendLoop rest total sent seq).chunks
      = rest.take 512 :: (sendLoop (rest.drop 512) total
          (sent + (rest.take 512).length) ((seq + 1) % 256)).chunks := by
  rw [sendLoop_ne rest total sent seq h]

theorem sendLoop_frames_ne (rest : List Nat) (total sent seq : Nat) (h : rest ≠ []) :
    (sendLoop rest total sent seq).frames
      = buildProtocolFrame DEVICE_ADDR FUNC_SEND_DATA seq (rest.take 512)
        :: (sendLoop (rest.drop 512) total
          (sent + (rest.take 512).length) ((seq + 1) % 256)).frames := by
  rw [sendLoop_ne rest total sent seq h]

theorem sendLoop_reports_ne (rest : List Nat) (total sent seq : Nat) (h : rest ≠ []) :
    (sendLoop rest total sent seq).reports
      = mathRound ((sent + (rest.take 512).length) * 100) total
        :: (sendLoop (rest.drop 512) total
          (sent + (rest.take 512).length) ((seq + 1) % 256)).reports := by
  rw [sendLoop_ne rest total sent seq h]

theorem sendLoop_finalSent_ne (rest : List Nat) (total sent seq : Nat) (h : rest ≠ []) :
    (sendLoop rest total sent seq).finalSent
      = (sendLoop (rest.drop 512) total
          (sent + (rest.take 512).length) ((seq + 1) % 256)).finalSent := by
  rw [sendLoop_ne rest total sent seq h]

theorem sendLoop_finalSeq_ne (rest : List Nat) (total sent seq : Nat) (h : rest ≠ []) :
    (sendLoop rest total sent seq).finalSeq
      = (sendLoop (rest.drop 512) total
          (sent + (rest.take 512).length) ((seq + 1) % 256)).finalSeq := by
  rw [sendLoop_ne rest total sent seq h]

theorem sendLoop_last (rest : List Nat) (total sent seq : Nat) (h : rest ≠ []) :
    ((sendLoop rest total sent seq).chunks.getLast?).map List.length
      = some (if rest.length % 512 = 0 then 512 else rest.length % 512) := by
  rw [sendLoop_chunks_ne rest total sent seq h]
  by_cases h2 : rest.drop 512 = []
  · have hlen : 0 < rest.length ∧ rest.length ≤ 512 := by
      constructor
      · exact List.length_pos.mpr h
      · have := congrArg List.length h2
        simp only [List.length_drop, List.length_nil] at this
        omega
    rw [show (sendLoop (rest.drop 512) total (sent + (rest.take 512).length)
        ((seq + 1) % 256)).chunks = [] by rw [h2, sendLoop_nil]]
    simp only [List.getLast?_singleton, Option.map_some', Option.some.injEq,
      List.length_take]
    rw [Nat.min_eq_right hlen.2]
    split_ifs <;> omega
  · have hne2 := sendLoop_last (rest.drop 512) total (sent + (rest.take 512).length)
      ((seq + 1) % 256) h2
    have hcons : (sendLoop (rest.drop 512) total (sent + (rest.take 512).length)
        ((seq + 1) % 256)).chunks ≠ [] := by
      intro hnil
      rw [hnil] at hne2
      simp at hne2
    obtain ⟨c, t, hct⟩ := List.exists_cons_of_ne_nil hcons
    rw [hct] at hne2
    rw [hct, List.getLast?_cons_cons, hne2]
    have hgt : 512 < rest.length := by
      have hld : (rest.drop 512).length = rest.length - 512 := List.length_drop 512 rest
      have hpos : 0 < (rest.drop 512).length := List.length_pos.mpr h2
      omega
    congr 1
    simp only [List.length_drop]
    have hmod : (rest.length - 512) % 512 = rest.length % 512 := by
      omega
    rw [hmod]
termination_by rest.length
decreasing_by
  simp only [List.length_drop]
  have : 0 < rest.length := List.length_pos.mpr h
  omega

theorem buildProtocolFrame_seqByte (deviceAddr funcType seq : Nat) (data : List Nat) :
    (buildProtocolFrame deviceAddr funcType seq data)[2]? = some (seq % 256) := rfl

theorem sendLoop_frames_length (rest : List Nat) (total sent seq : Nat) :
    (sendLoop rest total sent seq).frames.length
      = (sendLoop rest total sent seq).chunks.length := by
  by_cases h : rest = []
  · subst h; simp [sendLoop_nil]
  · rw [sendLoop_frames_ne rest total sent seq h, sendLoop_chunks_ne rest total sent seq h]
    simp only [List.length_cons]
    rw [sendLoop_frames_length (rest.drop 512) total (sent + (rest.take 512).length)
      ((seq + 1) % 256)]
termination_by rest.length
decreasing_by
  simp only [List.length_drop]
  have : 0 < rest.length := List.length_pos.mpr h
  omega

theorem sendLoop_seqBytes (rest : List Nat) (total sent seq : Nat) :
    (sendLoop rest total sent seq).frames.map (fun f => f[2]?)
      = (List.range (sendLoop rest total sent seq).chunks.length).map
          (fun i => some ((seq + i) % 256)) := by
  by_cases h : rest = []
  · subst h; simp [sendLoop_nil]
  · rw [sendLoop_frames_ne rest total sent seq h, sendLoop_chunks_ne rest total sent seq h]
    simp only [List.map_cons, List.length_cons, buildProtocolFrame_seqByte]
    rw [List.range_succ_eq_map]
    simp only [List.map_cons, List.map_map]
    rw [sendLoop_seqBytes (rest.drop 512) total (sent + (rest.take 512).length)
      ((seq + 1) % 256)]
    have hhead : some (seq % 256) = some ((seq + 0) % 256) := by rw [Nat.add_zero]
    have htail : (fun i => some (((seq + 1) % 256 + i) % 256))
        = ((fun i => some ((seq + i) % 256)) ∘ Nat.succ) := by
      funext i
      simp only [Function.comp_apply]
      congr 1
      omega
    rw [hhead, htail]
termination_by rest.length
decreasing_by
  simp only [List.length_drop]
  have : 0 < rest.length := List.length_pos.mpr h
  omega

theorem sendLoop_finalSent (rest : List Nat) (total sent seq : Nat) :
    (sendLoop rest total sent seq).finalSent = sent + rest.length := by
  by_cases h : rest = []
  · subst h; simp [sendLoop_nil]
  · rw [sendLoop_finalSent_ne rest total sent seq h]
    rw [sendLoop_finalSent (rest.drop 512) total (sent + (rest.take 512).length)
      ((seq + 1) % 256)]
    simp only [List.length_take, List.length_drop]
    omega
termination_by rest.length
decreasing_by
  simp only [List.length_drop]
  have : 0 < rest.length := List.length_pos.mpr h
  omega

theorem sendLoop_finalSeq (rest : List Nat) (total sent seq : Nat) (h256 : seq < 256) :
    (sendLoop rest total sent seq).finalSeq
      = (seq + (sendLoop rest total sent seq).chunks.length) % 256 := by
  by_cases h : rest = []
  · subst h
    simp [sendLoop_nil]
    omega
  · rw [sendLoop_finalSeq_ne rest total sent seq h, sendLoop_chunks_ne rest total sent seq h]
    rw [sendLoop_finalSeq (rest.drop 512) total (sent + (rest.take 512).length)
      ((seq + 1) % 256) (Nat.mod_lt _ (by norm_num))]
    simp only [List.length_cons]
    omega
termination_by rest.length
decreasing_by
  simp only [List.length_drop]
  have : 0 < rest.length := List.length_pos.mpr h
  omega

theorem sendLoop_reports (rest : List Nat) (total sent seq : Nat) :
    (sendLoop rest total sent seq).reports
      = (List.range (sendLoop rest total sent seq).chunks.length).map
          (fun i => mathRound ((sent + min rest.length (512 * (i + 1))) * 100) total) := by
  by_cases h : rest = []
  · subst h; simp [sendLoop_nil]
  · rw [sendLoop_reports_ne rest total sent seq h, sendLoop_chunks_ne rest total sent seq h]
    simp only [List.length_cons]
    rw [List.range_succ_eq_map]
    simp only [List.map_cons, List.map_map]
    rw [sendLoop_reports (rest.drop 512) total (sent + (rest.take 512).length)
      ((seq + 1) % 256)]
    have hhead : mathRound ((sent + (rest.take 512).length) * 100) total
        = mathRound ((sent + min rest.length (512 * (0 + 1))) * 100) total := by
      have harg : sent + (rest.take 512).length = sent + min rest.length (512 * (0 + 1)) := by
        simp only [List.length_take, Nat.min_def]
        split_ifs <;> omega
      rw [harg]
    have htail : (fun i => mathRound ((sent + (rest.take 512).length
          + min (rest.drop 512).length (512 * (i + 1))) * 100) total)
        = ((fun i => mathRound ((sent + min rest.length (512 * (i + 1))) * 100) total)
            ∘ Nat.succ) := by
      funext i
      simp only [Function.comp_apply]
      have harg : sent + (rest.take 512).length + min (rest.drop 512).length (512 * (i + 1))
          = sent + min rest.length (512 * (Nat.succ i + 1)) := by
        simp only [List.length_take, List.length_drop, Nat.min_def, Nat.succ_eq_add_one]
        split_ifs <;> omega
      rw [harg]
    rw [hhead, htail]
termination_by rest.length
decreasing_by
  simp only [List.length_drop]
  have : 0 < rest.length := List.length_pos.mpr h
  omega

/-! ## Engine unfoldings and the remaining claims -/

/-- `startUpgrade` with integrity mode off, as the source pins it. -/

theorem startUpgrade_false (image : List Nat) :
    startUpgrade image false =
      ⟨(sendLoop (image.map (· % 256)) image.length 0 0).chunks,
       (sendLoop (image.map (· % 256)) image.length 0 0).frames
         ++ [buildProtocolFrame DEVICE_ADDR FUNC_SEND_DATA
              (sendLoop (image.map (· % 256)) image.length 0 0).finalSeq []],
       (sendLoop (image.map (· % 256)) image.length 0 0).reports,
       .completed, 100,
       (sendLoop (image.map (· % 256)) image.length 0 0).finalSent,
       (sendLoop (image.map (· % 256)) image.length 0 0).finalSeq⟩ := by
  simp [startUpgrade, List.length_map]

theorem startUpgrade_true (image : List Nat) :
    startUpgrade image true =
      ⟨(sendLoop (image.map (· % 256)) image.length 0 0).chunks,
       ((sendLoop (image.map (· % 256)) image.length 0 0).frames
         ++ [buildProtocolFrame DEVICE_ADDR FUNC_SEND_CRC
              (sendLoop (image.map (· % 256)) image.length 0 0).finalSeq
              (crcBytes (calculateCRC32 (image.map (· % 256))))])
         ++ [buildProtocolFrame DEVICE_ADDR FUNC_SEND_DATA
              (((sendLoop (image.map (· % 256)) image.length 0 0).finalSeq + 1) % 256) []],
       (sendLoop (image.map (· % 256)) image.length 0 0).reports,
       .completed, 100,
       (sendLoop (image.map (· % 256)) image.length 0 0).finalSent,
       ((sendLoop (image.map (· % 256)) image.length 0 0).finalSeq + 1) % 256⟩ := by
  simp [startUpgrade, List.length_map]

theorem startUpgrade_chunks (image : List Nat) (u : Bool) :
    (startUpgrade image u).chunks
      = (sendLoop (image.map (· % 256)) image.length 0 0).chunks := by
  cases u
  · rw [startUpgrade_false]
  · rw [startUpgrade_true]

theorem startUpgrade_reports (image : List Nat) (u : Bool) :
    (startUpgrade image u).reports
      = (sendLoop (image.map (· % 256)) image.length 0 0).reports := by
  cases u
  · rw [startUpgrade_false]
  · rw [startUpgrade_true]

/-- C2.  `startUpgrade` splits the image into consecutive chunks of at
most 512 bytes whose lengths sum to the image length; the chunk count is
`ceil(L / 512)`; the final data chunk has length `L % 512` (512 when `L`
is a positive multiple of 512); and the sequence bytes of the emitted
frame list — data frames, optional CRC frame, terminator — are
`0, 1, 2, ...` reduced modulo 256. -/
theorem C2_chunking (image : List Nat) (useCRC : Bool) :
    ((startUpgrade image useCRC).chunks.map List.length).sum = image.length
    ∧ (startUpgrade image useCRC).chunks.flatten = image.map (· % 256)
    ∧ (startUpgrade image useCRC).chunks.length = (image.length + 511) / 512
    ∧ (∀ c ∈ (startUpgrade image useCRC).chunks, c.length ≤ 512)
    ∧ (image ≠ [] →
        ((startUpgrade image useCRC).chunks.getLast?).map List.length
          = some (if image.length % 512 = 0 then 512 else image.length % 512))
    ∧ (startUpgrade image useCRC).frames.map (fun f => f[2]?)
        = (List.range (startUpgrade image useCRC).frames.length).map
            (fun i => some (i % 256)) := by
  have hlen : (image.map (· % 256)).length = image.length := List.length_map _ _
  rw [startUpgrade_chunks image useCRC]
  refine ⟨?_, ?_, ?_, ?_, ?_, ?_⟩
  · rw [sendLoop_sum, hlen]
  · rw [sendLoop_flatten]
  · rw [sendLoop_count, hlen]
  · intro c hc
    exact ((sendLoop_chunk_le _ _ _ _) c hc).1
  · intro hne
    have hne2 : image.map (· % 256) ≠ [] := by
      simp only [ne_eq, List.map_eq_nil_iff]
      exact hne
    rw [sendLoop_last _ _ _ _ hne2, hlen]
  · -- sequence bytes across the whole frame list
    have hseq0 : (sendLoop (image.map (· % 256)) image.length 0 0).frames.map
          (fun f => f[2]?)
        = (List.range (sendLoop (image.map (· % 256)) image.length 0 0).chunks.length).map
            (fun i => some (i % 256)) := by
      rw [sendLoop_seqBytes]
      congr 1
      funext i
      rw [Nat.zero_add]
    have hflen : (sendLoop (image.map (· % 256)) image.length 0 0).frames.length
        = (sendLoop (image.map (· % 256)) image.length 0 0).chunks.length :=
      sendLoop_frames_length _ _ _ _
    have hfseq : (sendLoop (image.map (· % 256)) image.length 0 0).finalSeq
        = (sendLoop (image.map (· % 256)) image.length 0 0).chunks.length % 256 := by
      rw [sendLoop_finalSeq _ _ _ _ (by norm_num), Nat.zero_add]
    have hmm : ∀ x : Nat, x % 256 % 256 = x % 256 := fun x =>
      Nat.mod_mod_of_dvd x dvd_rfl
    cases useCRC
    · rw [startUpgrade_false]
      simp only [List.map_append, List.map_cons, List.map_nil,
        buildProtocolFrame_seqByte, List.length_append, List.length_cons,
        List.length_nil, hseq0, hflen, hfseq, hmm]
      rw [show (sendLoop (image.map (· % 256)) image.length 0 0).chunks.length + (0 + 1)
          = (sendLoop (image.map (· % 256)) image.length 0 0).chunks.length + 1 by omega]
      rw [List.range_succ, List.map_append]
      simp only [List.map_cons, List.map_nil]
    · rw [startUpgrade_true]
      simp only [List.map_append, List.map_cons, List.map_nil,
        buildProtocolFrame_seqByte, List.length_append, List.length_cons,
        List.length_nil, hseq0, hflen, hfseq, hmm]
      rw [show ((sendLoop (image.map (· % 256)) image.length 0 0).chunks.length % 256 + 1)
            % 256 = ((sendLoop (image.map (· % 256)) image.length 0 0).chunks.length + 1)
            % 256 by omega]
      rw [show (sendLoop (image.map (· % 256)) image.length 0 0).chunks.length + (0 + 1)
            + (0 + 1)
          = (sendLoop (image.map (· % 256)) image.length 0 0).chunks.length + 1 + 1 by omega]
      rw [List.range_succ, List.range_succ, List.map_append, List.map_append]
      simp only [List.map_cons, List.map_nil]

/-- C5 counterexample.  On a concrete image of 513 bytes the first
progress report is `Math.round(512 * 100 / 513) = 100`, while
`floor(512 * 100 / 513) = 99`: the engine rounds to nearest, it does not
floor. -/
theorem C5_counterexample :
    (startUpgrade (List.replicate 513 0) false).reports = [100, 100]
    ∧ 512 * 100 / 513 = 99
    ∧ (startUpgrade (List.replicate 513 0) false).reports
        ≠ [512 * 100 / 513, 513 * 100 / 513] := by
  have h1 : (startUpgrade (List.replicate 513 0) false).reports = [100, 100] := by
    rw [startUpgrade_reports, sendLoop_reports, sendLoop_count]
    simp only [List.length_map, List.length_replicate]
    decide
  refine ⟨h1, by decide, by rw [h1]; decide⟩

/-- C5 (amended).  After each data chunk the engine reports
`Math.round(sent * 100 / L)` — round half away from zero, `mathRound`,
not `floor` — where `sent`, the cumulative payload bytes transmitted,
equals `min L (512 * (i + 1))` after the `i`-th chunk. -/
theorem C5_progress (image : List Nat) (useCRC : Bool) :
    (startUpgrade image useCRC).reports
      = (List.range ((image.length + 511) / 512)).map
          (fun i => mathRound ((min image.length (512 * (i + 1))) * 100) image.length) := by
  rw [startUpgrade_reports, sendLoop_reports, sendLoop_count]
  simp only [List.length_map, Nat.zero_add]

theorem packWord_map_mod (l : List Nat) (off : Nat) :
    packWord (l.map (· % 256)) off = packWord l off := by
  have hbyte : ∀ k : Nat, (l.map (· % 256)).getD k 0 % 256 = l.getD k 0 % 256 := by
    intro k
    simp only [List.getD_eq_getElem?_getD, List.getElem?_map]
    cases l[k]? <;> simp [Nat.mod_mod_of_dvd _ dvd_rfl]
  simp only [packWord, hbyte]

theorem crc32Pattern_map_mod (l : List Nat) :
    crc32Pattern (l.map (· % 256)) = crc32Pattern l := by
  simp only [crc32Pattern, List.length_map, packWord_map_mod]

/-- C6.  Every transfer ends with a terminating `funcType = 0x01` frame
carrying the next sequence number and a zero-length payload (6 bytes,
length byte 0), transmitted last; when integrity-check mode is enabled
the frame right after the data chunks is a `funcType = 0x06` frame whose
payload is the little-endian encoding of the `crc32Word` pattern of the
entire image. -/
theorem C6_crc_and_terminator (image : List Nat) (useCRC : Bool) :
    (startUpgrade image useCRC).frames.length
        = (startUpgrade image useCRC).chunks.length + (if useCRC then 1 else 0) + 1
    ∧ (startUpgrade image useCRC).frames.getLast?
        = some (buildProtocolFrame DEVICE_ADDR FUNC_SEND_DATA
            (((startUpgrade image useCRC).chunks.length + if useCRC then 1 else 0) % 256) [])
    ∧ (buildProtocolFrame DEVICE_ADDR FUNC_SEND_DATA
        (((startUpgrade image useCRC).chunks.length + if useCRC then 1 else 0) % 256) []).length = 6
    ∧ (buildProtocolFrame DEVICE_ADDR FUNC_SEND_DATA
        (((startUpgrade image useCRC).chunks.length + if useCRC then 1 else 0) % 256) [])[3]?
        = some 0
    ∧ (useCRC = true →
        (startUpgrade image useCRC).frames[(startUpgrade image useCRC).chunks.length]?
          = some (buildProtocolFrame DEVICE_ADDR FUNC_SEND_CRC
              ((startUpgrade image useCRC).chunks.length % 256)
              [crc32Pattern image % 256, crc32Pattern image / 2 ^ 8 % 256,
               crc32Pattern image / 2 ^ 16 % 256, crc32Pattern image / 2 ^ 24 % 256])) := by
  have hflen : (sendLoop (image.map (· % 256)) image.length 0 0).frames.length
      = (sendLoop (image.map (· % 256)) image.length 0 0).chunks.length :=
    sendLoop_frames_length _ _ _ _
  have hfseq : (sendLoop (image.map (· % 256)) image.length 0 0).finalSeq
      = (sendLoop (image.map (· % 256)) image.length 0 0).chunks.length % 256 := by
    rw [sendLoop_finalSeq _ _ _ _ (by norm_num), Nat.zero_add]
  have hcrcbytes : crcBytes (calculateCRC32 (image.map (· % 256)))
      = [crc32Pattern image % 256, crc32Pattern image / 2 ^ 8 % 256,
         crc32Pattern image / 2 ^ 16 % 256, crc32Pattern image / 2 ^ 24 % 256] := by
    rw [calculateCRC32, crc32Pattern_map_mod]
    exact crcBytes_toInt32 _ (crc32Pattern_lt image)
  have hmm : ∀ x : Nat, x % 256 % 256 = x % 256 := fun x =>
    Nat.mod_mod_of_dvd x dvd_rfl
  cases useCRC
  · have hfr : (startUpgrade image false).frames
        = (sendLoop (image.map (· % 256)) image.length 0 0).frames
          ++ [buildProtocolFrame DEVICE_ADDR FUNC_SEND_DATA
               (sendLoop (image.map (· % 256)) image.length 0 0).finalSeq []] := by
      rw [startUpgrade_false]
    rw [startUpgrade_chunks image false, hfr]
    refine ⟨?_, ?_, by simp [buildProtocolFrame, calculateChecksum], rfl,
      by intro hf; cases hf⟩
    · simp only [List.length_append, List.length_cons, List.length_nil, hflen]
      norm_num
    · rw [List.getLast?_concat, hfseq]
      rw [show ((sendLoop (image.map (· % 256)) image.length 0 0).chunks.length
            + if false then 1 else 0)
          = (sendLoop (image.map (· % 256)) image.length 0 0).chunks.length by simp]
  · have hfr : (startUpgrade image true).frames
        = ((sendLoop (image.map (· % 256)) image.length 0 0).frames
            ++ [buildProtocolFrame DEVICE_ADDR FUNC_SEND_CRC
                 (sendLoop (image.map (· % 256)) image.length 0 0).finalSeq
                 (crcBytes (calculateCRC32 (image.map (· % 256))))])
          ++ [buildProtocolFrame DEVICE_ADDR FUNC_SEND_DATA
               (((sendLoop (image.map (· % 256)) image.length 0 0).finalSeq + 1) % 256) []] := by
      rw [startUpgrade_true]
    rw [startUpgrade_chunks image true, hfr]
    refine ⟨?_, ?_, by simp [buildProtocolFrame, calculateChecksum], rfl, ?_⟩
    · simp only [List.length_append, List.length_cons, List.length_nil, hflen]
      norm_num
    · rw [List.getLast?_concat, hfseq]
      congr 2
      rw [if_pos rfl]
      omega
    · intro _
      rw [List.getElem?_append_left (by
        simp only [List.length_append, List.length_cons, List.length_nil, hflen]
        omega)]
      rw [List.getElem?_append_right (by rw [hflen])]
      rw [hflen]
      simp only [Nat.sub_self, List.getElem?_cons_zero]
      rw [hfseq, hcrcbytes]

/-- C2 witness: the final-chunk clause discharged on a concrete 3-byte
image. -/
theorem C2_chunking_witness :
    ([1, 2, 3] : List Nat) ≠ []
    ∧ ((startUpgrade [1, 2, 3] false).chunks.getLast?).map List.length = some 3 := by
  refine ⟨by decide, ?_⟩
  have h := (C2_chunking [1, 2, 3] false).2.2.2.2.1 (by decide)
  simpa using h

/-- C6 witness: the integrity-mode clause discharged on a concrete
2-byte image. -/
theorem C6_crc_and_terminator_witness :
    (startUpgrade [1, 2] true).frames[(startUpgrade [1, 2] true).chunks.length]?
      = some (buildProtocolFrame DEVICE_ADDR FUNC_SEND_CRC
          ((startUpgrade [1, 2] true).chunks.length % 256)
          [crc32Pattern [1, 2] % 256, crc32Pattern [1, 2] / 2 ^ 8 % 256,
           crc32Pattern [1, 2] / 2 ^ 16 % 256, crc32Pattern [1, 2] / 2 ^ 24 % 256]) :=
  (C6_crc_and_terminator [1, 2] true).2.2.2.2 rfl

/-- C9.  For a data chunk of exactly 512 bytes the frame dataLength
byte is `512 % 256 = 0` — identical to the terminator frame length byte —
while the frame still carries all 512 payload bytes (total length 518)
and the trailing checksum is the 16-bit sum over the 516 header-plus-data
bytes. -/
theorem C9_full_chunk (seq tseq : Nat) (data : List Nat) (h : data.length = 512) :
    (buildProtocolFrame DEVICE_ADDR FUNC_SEND_DATA seq data)[3]? = some 0
    ∧ (buildProtocolFrame DEVICE_ADDR FUNC_SEND_DATA tseq [])[3]? = some 0
    ∧ ((buildProtocolFrame DEVICE_ADDR FUNC_SEND_DATA seq data).drop 4).take 512
        = data.map (· % 256)
    ∧ (buildProtocolFrame DEVICE_ADDR FUNC_SEND_DATA seq data).length = 518
    ∧ (buildProtocolFrame DEVICE_ADDR FUNC_SEND_DATA seq data).drop 516
        = [calculateChecksum ((buildProtocolFrame DEVICE_ADDR FUNC_SEND_DATA seq data).take 516) / 256,
           calculateChecksum ((buildProtocolFrame DEVICE_ADDR FUNC_SEND_DATA seq data).take 516) % 256] := by
  have hmap : (data.map (· % 256)).length = 512 := by
    rw [List.length_map, h]
  have hbody : ([DEVICE_ADDR % 256, FUNC_SEND_DATA % 256, seq % 256, data.length % 256]
      ++ data.map (· % 256)).length = 516 := by
    simp only [List.length_append, List.length_cons, List.length_nil, hmap]
  have hfr := buildProtocolFrame_eq DEVICE_ADDR FUNC_SEND_DATA seq data
  have htake : (buildProtocolFrame DEVICE_ADDR FUNC_SEND_DATA seq data).take 516
      = [DEVICE_ADDR % 256, FUNC_SEND_DATA % 256, seq % 256, data.length % 256]
        ++ data.map (· % 256) := by
    rw [hfr, List.take_left' hbody]
  have hS : calculateChecksum ((buildProtocolFrame DEVICE_ADDR FUNC_SEND_DATA seq data).take 516)
      = ([DEVICE_ADDR % 256, FUNC_SEND_DATA % 256, seq % 256, data.length % 256]
          ++ data.map (· % 256)).sum % 65536 := by
    rw [htake, calculateChecksum_eq_sum]
  refine ⟨?_, rfl, ?_, ?_, ?_⟩
  · rw [hfr]
    simp only [List.cons_append, List.getElem?_cons_succ, List.getElem?_cons_zero, h]
  · rw [hfr]
    simp only [List.cons_append, List.drop_succ_cons, List.drop_zero, List.nil_append]
    rw [List.take_left' hmap]
  · rw [hfr]
    simp only [List.length_append, List.length_cons, List.length_nil, hmap]
  · rw [hS, hfr, List.drop_left' hbody]

/-- C9 witness: the length-byte clause at a concrete 512-byte chunk. -/
theorem C9_full_chunk_witness :
    (List.replicate 512 171).length = 512
    ∧ (buildProtocolFrame DEVICE_ADDR FUNC_SEND_DATA 5 (List.replicate 512 171))[3]?
        = some 0 :=
  ⟨by rw [List.length_replicate],
   (C9_full_chunk 5 7 (List.replicate 512 171) (by rw [List.length_replicate])).1⟩

/-- C10.  On an empty image the engine cuts no chunks, reports no
progress (so the division by the image length is never evaluated), sends
no data frame and no CRC frame, sends only the terminator with sequence
number 0, and finishes completed at progress 100. -/
theorem C10_empty_image :
    startUpgrade [] false
      = ⟨[], [buildProtocolFrame DEVICE_ADDR FUNC_SEND_DATA 0 []], [],
         UpgradeStatus.completed, 100, 0, 0⟩
    ∧ (startUpgrade [] false).reports = []
    ∧ (startUpgrade [] false).frames = [[0x01, 0x01, 0x00, 0x00, 0x00, 0x02]]
    ∧ (∀ f ∈ (startUpgrade [] false).frames, f[1]? ≠ some 0x06)
    ∧ (startUpgrade [] false).status = UpgradeStatus.completed
    ∧ (startUpgrade [] false).progress = 100 := by
  have h : startUpgrade [] false
      = ⟨[], [buildProtocolFrame DEVICE_ADDR FUNC_SEND_DATA 0 []], [],
         UpgradeStatus.completed, 100, 0, 0⟩ := by
    rw [startUpgrade_false]
    simp [sendLoop_nil]
  refine ⟨h, by rw [h], by rw [h]; rfl, ?_, by rw [h], by rw [h]⟩
  rw [h]
  decide

theorem allGroupsLoop_eq (bytes : List Nat) (k : Nat) :
    allGroupsLoop bytes (24 * k)
      = ((List.range (bytes.length / 24)).drop k).filterMap
          (fun j => if bytes[24 * j]? = some 0xAA
            then some ((bytes.drop (24 * j)).take 24) else none) := by
  by_cases h : 24 * k + 24 ≤ bytes.length
  · have hk : k < bytes.length / 24 := by omega
    have hklen : k < (List.range (bytes.length / 24)).length := by
      rw [List.length_range]
      exact hk
    have hdrop : (List.range (bytes.length / 24)).drop k
        = k :: (List.range (bytes.length / 24)).drop (k + 1) := by
      rw [List.drop_eq_getElem_cons hklen, List.getElem_range]
    rw [allGroupsLoop.eq_def, if_pos h, hdrop, List.filterMap_cons]
    rw [show 24 * k + 24 = 24 * (k + 1) by ring]
    rw [allGroupsLoop_eq bytes (k + 1)]
    by_cases hAA : bytes[24 * k]? = some 0xAA
    · rw [if_pos hAA, if_pos hAA]
      simp
    · rw [if_neg hAA, if_neg hAA]
      simp
  · have hk : bytes.length / 24 ≤ k := by omega
    rw [allGroupsLoop.eq_def, if_neg h]
    rw [List.drop_eq_nil_of_le (by rw [List.length_range]; exact hk)]
    simp
termination_by bytes.length - 24 * k
decreasing_by omega

/-- C7.  The raw-data grouper is a pure function of the buffer that
partitions it into 24-byte runs at offsets 0, 24, 48, ..., keeps exactly
the full runs whose first byte is `0xAA` (no short trailing run is ever
produced), and displays the most recent three kept groups; a 50-byte
buffer with `0xAA` at offsets 0 and 24 yields exactly 2 groups. -/
theorem C7_telemetry_grouping (bytes : List Nat) :
    allGroupsLoop bytes 0
        = (List.range (bytes.length / 24)).filterMap
            (fun j => if bytes[24 * j]? = some 0xAA
              then some ((bytes.drop (24 * j)).take 24) else none)
    ∧ recentGroups bytes
        = (allGroupsLoop bytes 0).drop ((allGroupsLoop bytes 0).length - 3)
    ∧ (recentGroups bytes).length ≤ 3
    ∧ (∀ g ∈ recentGroups bytes, g.length = 24 ∧ g.head? = some 0xAA)
    ∧ (bytes.length = 50 → bytes[0]? = some 0xAA → bytes[24]? = some 0xAA →
        bytes[48]? ≠ some 0xAA →
        (allGroupsLoop bytes 0).length = 2 ∧ (recentGroups bytes).length = 2) := by
  have hchar : allGroupsLoop bytes 0
      = (List.range (bytes.length / 24)).filterMap
          (fun j => if bytes[24 * j]? = some 0xAA
            then some ((bytes.drop (24 * j)).take 24) else none) := by
    have h := allGroupsLoop_eq bytes 0
    rw [show 24 * 0 = 0 from rfl, List.drop_zero] at h
    exact h
  have hmem : ∀ g ∈ allGroupsLoop bytes 0, g.length = 24 ∧ g.head? = some 0xAA := by
    intro g hg
    rw [hchar] at hg
    obtain ⟨j, hj, hfj⟩ := List.mem_filterMap.mp hg
    have hjlt : j < bytes.length / 24 := List.mem_range.mp hj
    have hle : 24 * j + 24 ≤ bytes.length := by omega
    by_cases hAA : bytes[24 * j]? = some 0xAA
    · rw [if_pos hAA] at hfj
      have hg2 : g = (bytes.drop (24 * j)).take 24 := (Option.some.injEq _ _ ▸ hfj).symm
      subst hg2
      constructor
      · rw [List.length_take, List.length_drop]
        rw [Nat.min_eq_left (by omega)]
      · rw [List.head?_eq_getElem?, List.getElem?_take, if_pos (by norm_num : (0 : Nat) < 24),
          List.getElem?_drop, Nat.add_zero]
        exact hAA
    · rw [if_neg hAA] at hfj
      cases hfj
  refine ⟨hchar, rfl, ?_, ?_, ?_⟩
  · simp only [recentGroups, List.length_drop]
    omega
  · intro g hg
    exact hmem g (List.mem_of_mem_drop hg)
  · intro hlen h0 h24 h48
    have hall : allGroupsLoop bytes 0
        = [(bytes.drop 0).take 24, (bytes.drop 24).take 24] := by
      rw [hchar, hlen]
      rw [show (50 : Nat) / 24 = 2 from rfl, show List.range 2 = [0, 1] from rfl]
      simp only [List.filterMap_cons, List.filterMap_nil]
      rw [show 24 * 0 = 0 from rfl, show 24 * 1 = 24 from rfl]
      rw [if_pos h0, if_pos h24]
    constructor
    · rw [hall]
      rfl
    · simp only [recentGroups, hall]
      rfl

/-- C7 witness: the 50-byte clause at a concrete buffer. -/
theorem C7_telemetry_grouping_witness :
    (allGroupsLoop (List.replicate 24 0xAA ++ (0xAA :: List.replicate 25 0)) 0).length = 2 := by
  have h := (C7_telemetry_grouping
    (List.replicate 24 0xAA ++ (0xAA :: List.replicate 25 0))).2.2.2.2
    (by decide) (by decide) (by decide) (by decide)
  exact h.1

/-- C8.  Pressing the upgrade button while the session is `upgrading`
is rejected by the disabled-button guard: the state is returned
unchanged and nothing is queued. -/
theorem C8_reject_while_upgrading (st : UiState)
    (h : st.session.status = UpgradeStatus.upgrading) :
    pressUpgradeButton st = st := by
  simp [pressUpgradeButton, upgradeButtonDisabled, h]

/-- C8 witness: a concrete in-progress state is left untouched. -/
theorem C8_reject_while_upgrading_witness :
    (⟨true, some [1, 2], ⟨37, 4, 2048, UpgradeStatus.upgrading⟩⟩ : UiState).session.status
        = UpgradeStatus.upgrading
    ∧ pressUpgradeButton ⟨true, some [1, 2], ⟨37, 4, 2048, UpgradeStatus.upgrading⟩⟩
        = ⟨true, some [1, 2], ⟨37, 4, 2048, UpgradeStatus.upgrading⟩⟩ :=
  ⟨rfl, C8_reject_while_upgrading _ rfl⟩

end SerialJoystick
